import Mathlib

/-!
# Verification of the sgraphs chart-configuration engine

Shallow embedding, in Lean 4, of the heuristic chart-configuration core of
the `sgraphs` repository (axis selection, chart-type and aggregation
policies, value comparator, date parser, dataset reshaper and domain
calculator), together with proofs and refutations of the specification's
claims about it.

Modelling conventions (JavaScript semantics):
- A raw JavaScript value occurring in a record is one of: a number, a
  string, `null`, or `undefined` (`JSVal`). Numbers are modelled as exact
  rationals (`Rat`); IEEE-754 rounding and the exponent display format of
  extreme magnitudes are outside the model, so numbers stringify in plain
  decimal notation.
- A record (one row) is an association list from field id to value;
  a lookup of an absent key yields `undefined`, as in JavaScript.
- `String(v)` coercion is `jsToString`; property-key coercion of object
  indexing is the same function.
- `parseFloat` is modelled by `jsParseFloat` (`none` = `NaN`); the
  `Infinity` literal is not modelled.
- `Array.prototype.sort` (stable since ES2019) is modelled by a stable
  insertion sort `jsSort`.
- `String.prototype.localeCompare` is modelled as code-point
  lexicographic comparison.
-/

namespace Sgraphs

/-- A raw JavaScript value as it occurs in a dataset record. -/
inductive JSVal where
  | num (q : Rat)
  | str (s : String)
  | null
  | undef
deriving DecidableEq, Repr, Inhabited

/-- One row of raw data: an association list from field id to value
(first binding wins, as produced by JSON parsing). -/
abbrev Record := List (String × JSVal)

/-- JavaScript property access `r[k]`: the first binding for `k`, or
`undefined` when the key is absent. -/
def getField (r : Record) (k : String) : JSVal :=
  match r.find? (fun p => p.1 = k) with
  | some p => p.2
  | none => JSVal.undef

/-- JavaScript truthiness test (restricted to the values of the model):
`undefined`, `null`, `0` and `""` are falsy. -/
def jsFalsy : JSVal → Bool
  | .num q => q = 0
  | .str s => s = ""
  | .null => true
  | .undef => true

/-- `v === null || v === undefined`. -/
def isNullish : JSVal → Bool
  | .null => true
  | .undef => true
  | _ => false

/-- Left-pad the decimal digits of `n` with zeros to the given width. -/
def natDecimalPad (n : Nat) (width : Nat) : String :=
  let s := toString n
  String.mk (List.replicate (width - s.length) '0') ++ s

/-- Plain decimal rendering of a rational, modelling JavaScript
number-to-string conversion. Integers render as such; other rationals
with a finite decimal expansion render with the shortest fraction part.
Rationals with no finite decimal expansion are not exactly representable
as JavaScript numbers; they get an artificial `num/den` rendering. -/
def ratDecimalString (q : Rat) : String :=
  if q.den = 1 then toString q.num
  else
    let sign := if q.num < 0 then "-" else ""
    let n := q.num.natAbs
    let d := q.den
    match (List.range 31).find? (fun k => d ∣ 10 ^ k) with
    | some k =>
        let scaled := n * 10 ^ k / d
        sign ++ toString (scaled / 10 ^ k) ++ "." ++ natDecimalPad (scaled % 10 ^ k) k
    | none => sign ++ toString n ++ "/" ++ toString d

/-- JavaScript `String(v)` coercion. -/
def jsToString : JSVal → String
  | .num q => ratDecimalString q
  | .str s => s
  | .null => "null"
  | .undef => "undefined"

/-! ## isFloatOrInt — the strict numeric classifier

Source (`part_004`):
`export function isFloatOrInt(val) { return /^-?\d*(\.\d+)?$/.test(val); }`
-/

/-- Strip the optional leading minus sign (`-?` in the regex). -/
def stripMinus (cs : List Char) : List Char :=
  match cs with
  | c :: rest => if c = '-' then rest else c :: rest
  | [] => []

/-- Matcher for the tail `(\.\d+)?$` of the regex: either nothing, or a
dot followed by at least one digit. -/
def fracPart (cs : List Char) : Bool :=
  match cs with
  | [] => true
  | c :: frac => c = '.' && frac ≠ [] && frac.all Char.isDigit

/-- Matcher for the regex `^-?\d*(\.\d+)?$` on a character list: an
optional minus sign, any number of digits, then optionally a dot followed
by at least one digit. -/
def floatOrIntChars (cs : List Char) : Bool :=
  fracPart ((stripMinus cs).dropWhile Char.isDigit)

/-- `isFloatOrInt(val)`: the regex `^-?\d*(\.\d+)?$` tested against the
stringified value. -/
def isFloatOrInt (v : JSVal) : Bool :=
  floatOrIntChars (jsToString v).data

/-! ## parseFloat model -/

/-- Digit list to natural number (most significant first). -/
def digitsToNat (cs : List Char) : Nat :=
  cs.foldl (fun acc c => 10 * acc + (c.toNat - '0'.toNat)) 0

/-- `10 ^ e` for a signed exponent, over the rationals. -/
def ratPow10 (e : Int) : Rat :=
  if 0 ≤ e then ((10 : Rat) ^ e.toNat) else 1 / (10 : Rat) ^ (-e).toNat

/-- Model of JavaScript `parseFloat` applied to a string: skip leading
whitespace, then read the longest prefix of the form
`[+-]? (digits [. digits*] | . digits) ([eE] [+-]? digits)?`; `none`
models `NaN` (no digits found). The `Infinity` literal is not modelled. -/
def jsParseFloat (s : String) : Option Rat :=
  let cs := s.data.dropWhile Char.isWhitespace
  let (sgn, cs) : Rat × List Char :=
    match cs with
    | '-' :: r => (-1, r)
    | '+' :: r => (1, r)
    | _ => (1, cs)
  let (ip, cs) := (cs.takeWhile Char.isDigit, cs.dropWhile Char.isDigit)
  let (fp, cs) : List Char × List Char :=
    match cs with
    | '.' :: r => (r.takeWhile Char.isDigit, r.dropWhile Char.isDigit)
    | _ => ([], cs)
  if ip = [] && fp = [] then none
  else
    let mant : Rat := (digitsToNat ip : Rat) + (digitsToNat fp : Rat) / (10 : Rat) ^ fp.length
    let expo : Int :=
      match cs with
      | 'e' :: r | 'E' :: r =>
        let (esgn, r) : Int × List Char :=
          match r with
          | '-' :: r2 => (-1, r2)
          | '+' :: r2 => (1, r2)
          | _ => (1, r)
        let ed := r.takeWhile Char.isDigit
        if ed = [] then 0 else esgn * (digitsToNat ed : Int)
      | _ => 0
    some (sgn * mant * ratPow10 expo)

/-! ## parseFloatOrText

Source (`part_004`):
`export function parseFloatOrText(value) { let int = parseFloat(value); return isNaN(int) ? value : int; }`
-/

/-- `parseFloatOrText(value)`: the `parseFloat` of the value if that is
not `NaN`, the original value otherwise. -/
def parseFloatOrText (v : JSVal) : JSVal :=
  match jsParseFloat (jsToString v) with
  | some q => .num q
  | none => v

/-- `v` is a number value. -/
def JSVal.isNum : JSVal → Bool
  | .num _ => true
  | _ => false

/-- The rational carried by a number value (`0` otherwise). -/
def JSVal.numPart : JSVal → Rat
  | .num q => q
  | _ => 0

/-- Shape of the optional decimal part: nothing, or a dot followed by at
least one digit. -/
def FracShape (frac : List Char) : Prop :=
  frac = [] ∨ ∃ fs, frac = '.' :: fs ∧ fs ≠ [] ∧ ∀ c ∈ fs, c.isDigit

/-- Declarative reading of the specification's numeric pattern: the
character list splits into an optional minus sign, a block of digits, and
an optional decimal part (a dot followed by at least one digit), with
nothing else. -/
def NumericShape (cs : List Char) : Prop :=
  ∃ sgn ds frac, cs = sgn ++ ds ++ frac ∧
    (sgn = [] ∨ sgn = ['-']) ∧ (∀ c ∈ ds, c.isDigit) ∧ FracShape frac

theorem fracPart_iff (cs : List Char) : fracPart cs = true ↔ FracShape cs := by
  cases cs with
  | nil => simp [fracPart, FracShape]
  | cons c frac =>
    simp only [fracPart, FracShape, Bool.and_eq_true, decide_eq_true_eq, ne_eq,
      List.all_eq_true, List.cons.injEq, reduceCtorEq, false_or]
    constructor
    · rintro ⟨⟨rfl, hne⟩, hall⟩
      exact ⟨frac, ⟨rfl, rfl⟩, hne, hall⟩
    · rintro ⟨fs, ⟨rfl, rfl⟩, hne, hall⟩
      exact ⟨⟨rfl, hne⟩, hall⟩

/-- The sign-free part of the matcher agrees with the declarative
digits-then-optional-decimal decomposition. -/
theorem floatOrIntBody_iff (cs : List Char) :
    fracPart (cs.dropWhile Char.isDigit) = true ↔
    ∃ ds frac, cs = ds ++ frac ∧ (∀ c ∈ ds, c.isDigit) ∧ FracShape frac := by
  constructor
  · intro h
    refine ⟨cs.takeWhile Char.isDigit, cs.dropWhile Char.isDigit,
      (cs.takeWhile_append_dropWhile Char.isDigit).symm,
      fun c hc => List.mem_takeWhile_imp hc, ?_⟩
    exact (fracPart_iff _).mp h
  · rintro ⟨ds, frac, rfl, hds, hfrac⟩
    have hds' : ds.dropWhile Char.isDigit = [] :=
      List.dropWhile_eq_nil_iff.mpr (fun c hc => hds c hc)
    rw [List.dropWhile_append, hds']
    simp only [List.isEmpty_nil, if_true]
    have hfrac' : frac.dropWhile Char.isDigit = frac := by
      rcases hfrac with rfl | ⟨fs, rfl, _, _⟩
      · rfl
      · rw [List.dropWhile_cons]
        simp
    rw [hfrac']
    exact (fracPart_iff _).mpr hfrac

/-- C8: `isFloatOrInt` (the spec's `isNumericLike`) accepts a value
exactly when its stringification is an optional minus sign, a digit
block, and an optional decimal part with nothing else; in particular the
empty string matches (zero digits, no decimal part). -/
theorem isFloatOrInt_iff_numericShape :
    (∀ v : JSVal, isFloatOrInt v = true ↔ NumericShape (jsToString v).data) ∧
    isFloatOrInt (.str "") = true := by
  refine ⟨fun v => ?_, by decide⟩
  unfold isFloatOrInt floatOrIntChars
  rcases hcs : (jsToString v).data with _ | ⟨c, rest⟩
  · rw [show stripMinus [] = [] from rfl]
    constructor
    · intro _; exact ⟨[], [], [], rfl, Or.inl rfl, by simp, Or.inl rfl⟩
    · intro _; decide
  · by_cases hminus : c = '-'
    · subst hminus
      rw [show stripMinus ('-' :: rest) = rest from rfl, floatOrIntBody_iff]
      constructor
      · rintro ⟨ds, frac, rfl, hds, hfrac⟩
        exact ⟨['-'], ds, frac, rfl, Or.inr rfl, hds, hfrac⟩
      · rintro ⟨sgn, ds, frac, heq, hsgn, hds, hfrac⟩
        rcases hsgn with rfl | rfl
        · -- no sign: the list nonetheless starts with '-', so either the
          -- digit block or the decimal part would have to start with '-'
          simp only [List.nil_append] at heq
          rcases ds with _ | ⟨d, ds'⟩
          · rcases hfrac with rfl | ⟨fs, rfl, hne, hfs⟩
            · simp at heq
            · simp only [List.nil_append] at heq
              injection heq with h1 _
              exact absurd h1.symm (by decide)
          · injection heq with h1 h2
            have hd := hds d (by simp)
            rw [← h1] at hd
            exact absurd hd (by decide)
        · injection heq with _ h2
          exact ⟨ds, frac, h2, hds, hfrac⟩
    · have hm : stripMinus (c :: rest) = c :: rest := by
        simp [stripMinus, hminus]
      rw [hm, floatOrIntBody_iff]
      constructor
      · rintro ⟨ds, frac, heq, hds, hfrac⟩
        exact ⟨[], ds, frac, by simpa using heq, Or.inl rfl, hds, hfrac⟩
      · rintro ⟨sgn, ds, frac, heq, hsgn, hds, hfrac⟩
        rcases hsgn with rfl | rfl
        · exact ⟨ds, frac, by simpa using heq, hds, hfrac⟩
        · injection heq with h1 _
          exact absurd h1 hminus

/-- C8 witness: the classifier and the declarative shape agree on a
concrete mixed input. -/
theorem isFloatOrInt_iff_numericShape_witness :
    isFloatOrInt (.str "-12.5") = true ∧ NumericShape "-12.5".data :=
  ⟨by decide, (isFloatOrInt_iff_numericShape.1 (.str "-12.5")).mp (by decide)⟩

/-- C10: `parseFloatOrText` returns the `parseFloat` of the value when
that parse succeeds and the original value otherwise; in particular a
numeric prefix followed by text is converted to the prefix number, which
the strict classifier `isFloatOrInt` rejects. -/
theorem parseFloatOrText_spec :
    (∀ v : JSVal, parseFloatOrText v =
      match jsParseFloat (jsToString v) with
      | some q => JSVal.num q
      | none => v) ∧
    parseFloatOrText (.str "12abc") = .num 12 ∧
    isFloatOrInt (.str "12abc") = false :=
  ⟨fun _ => rfl, by with_unfolding_all decide, by decide⟩

/-! ## Date parsing

Source (`part_004`): `isDateString`, `parseDate`.
-/

/-- Days between 1970-01-01 and the civil date `y-m-d` (Hinnant's
algorithm); out-of-range day numbers normalize forward exactly as the
JavaScript `Date` constructor does. -/
def daysFromCivil (y m d : Int) : Int :=
  let y := y - (if m ≤ 2 then 1 else 0)
  let era := Int.fdiv y 400
  let yoe := y - era * 400
  let doy := (153 * (m + (if 2 < m then -3 else 9)) + 2) / 5 + d - 1
  let doe := yoe * 365 + yoe / 4 - yoe / 100 + doy
  era * 146097 + doe - 719468

/-- Millisecond timestamp of the date `y-m-d` (midnight). The model fixes
the local timezone offset at zero, so local-time and UTC constructions
coincide. -/
def dateMillis (y m d : Int) : Rat :=
  ((daysFromCivil y m d * 86400000 : Int) : Rat)

/-- A date separator, `[dash or slash]` in the source's regexes. -/
def isSep (c : Char) : Bool := c = '-' || c = '/'

/-- Matcher for `^(\d{4})[dash or slash](\d{1,2})$`: year and month digits. -/
def matchYM (cs : List Char) : Option (Nat × Nat) :=
  match cs with
  | [a, b, c, d, s, m1] =>
    if [a, b, c, d].all Char.isDigit && isSep s && m1.isDigit then
      some (digitsToNat [a, b, c, d], digitsToNat [m1])
    else none
  | [a, b, c, d, s, m1, m2] =>
    if [a, b, c, d].all Char.isDigit && isSep s && m1.isDigit && m2.isDigit then
      some (digitsToNat [a, b, c, d], digitsToNat [m1, m2])
    else none
  | _ => none

/-- `\d{1,2}$`: a final run of exactly one or two digits. -/
def endNum12 (cs : List Char) : Option Nat :=
  match cs with
  | [a] => if a.isDigit then some (digitsToNat [a]) else none
  | [a, b] => if a.isDigit && b.isDigit then some (digitsToNat [a, b]) else none
  | _ => none

/-- `\d{1,2}[dash or slash]`: one or two digits followed by a separator; returns the
number and the characters after the separator. -/
def num12Sep (cs : List Char) : Option (Nat × List Char) :=
  match cs with
  | a :: b :: rest =>
    if a.isDigit then
      if isSep b then some (digitsToNat [a], rest)
      else if b.isDigit then
        match rest with
        | s :: rest2 => if isSep s then some (digitsToNat [a, b], rest2) else none
        | [] => none
      else none
    else none
  | _ => none

/-- Matcher for `^(\d{4})[dash or slash](\d{1,2})[dash or slash](\d{1,2})$`. -/
def matchYMD (cs : List Char) : Option (Nat × Nat × Nat) :=
  match cs with
  | a :: b :: c :: d :: s :: rest =>
    if [a, b, c, d].all Char.isDigit && isSep s then
      match num12Sep rest with
      | some (m, rest2) =>
        match endNum12 rest2 with
        | some dd => some (digitsToNat [a, b, c, d], m, dd)
        | none => none
      | none => none
    else none
  | _ => none

/-- Model of the generic `Date.parse` fallback: the model accepts exactly
the four-digit-year form (ISO `YYYY`, midnight January 1); every other
free-form date text is treated as unparseable (`none` = `NaN`). -/
def jsDateParse (s : String) : Option Rat :=
  match s.data with
  | [a, b, c, d] =>
    if [a, b, c, d].all Char.isDigit then
      some (dateMillis (digitsToNat [a, b, c, d]) 1 1)
    else none
  | _ => none

/-- `parseDate(value)`: `null` for falsy input, numbers returned
unchanged, then the `YYYY-MM` and `YYYY-MM-DD` regexes (months validated
to 1–12, days to 1–31), then the generic date parser. -/
def parseDate (v : JSVal) : Option Rat :=
  if jsFalsy v then none
  else
    match v with
    | .num q => some q
    | .str s =>
      match matchYM s.data with
      | some (y, m) =>
        if 1 ≤ m && m ≤ 12 then some (dateMillis y m 1)
        else parseDateTail s
      | none => parseDateTail s
    | _ => none
where
  /-- The `YYYY-MM-DD` attempt followed by the generic fallback. -/
  parseDateTail (s : String) : Option Rat :=
    match matchYMD s.data with
    | some (y, m, d) =>
      if 1 ≤ m && m ≤ 12 && 1 ≤ d && d ≤ 31 then some (dateMillis y m d)
      else jsDateParse s
    | none => jsDateParse s

/-- `isDateString(value)`: strings only; the combined
`^\d{4}[dash or slash]\d{1,2}([dash or slash]\d{1,2})?$` pattern or a successful generic
parse. -/
def isDateString (v : JSVal) : Bool :=
  match v with
  | .str s =>
    if s = "" then false
    else (matchYM s.data).isSome || (matchYMD s.data).isSome || (jsDateParse s).isSome
  | _ => false

/-- C7 counterexample: `parseDate` does not return the number `0`
unchanged — the falsy-input guard runs first and maps `0` to `null`. -/
theorem parseDate_zero_cex : parseDate (.num 0) ≠ some 0 := by decide

/-- C7 amended: every nonzero number is returned unchanged by
`parseDate`; the number `0` is falsy and yields `null`. -/
theorem parseDate_num (q : Rat) (hq : q ≠ 0) :
    parseDate (.num q) = some q := by
  simp [parseDate, jsFalsy, hq]

/-- C7 witness: a concrete nonzero numeric timestamp passes through. -/
theorem parseDate_num_witness : parseDate (.num 5) = some 5 :=
  parseDate_num 5 (by norm_num)

/-! ## compareValues — the mixed-type comparator

Source (`part_004`): `compareValues`.
-/

/-- Code-point lexicographic three-way comparison of character lists,
modelling `String.prototype.localeCompare`. -/
def listCmp : List Char → List Char → Int
  | [], [] => 0
  | [], _ :: _ => -1
  | _ :: _, [] => 1
  | a :: as, b :: bs => if a < b then -1 else if b < a then 1 else listCmp as bs

/-- The tail of `compareValues` for non-nullish operands that are not
both numbers: numeric-like comparison, then date comparison (dates sort
before non-dates), then string comparison. -/
def cmpTail (a b : JSVal) : Rat :=
  if (jsParseFloat (jsToString a)).isSome && (jsParseFloat (jsToString b)).isSome
      && isFloatOrInt a && isFloatOrInt b then
    (jsParseFloat (jsToString a)).getD 0 - (jsParseFloat (jsToString b)).getD 0
  else
    match parseDate (.str (jsToString a)), parseDate (.str (jsToString b)) with
    | some x, some y => x - y
    | some _, none => -1
    | none, some _ => 1
    | none, none => ((listCmp (jsToString a).data (jsToString b).data : Int) : Rat)

/-- `compareValues(a, b)`: signed-magnitude comparison handling
null/undefined, numbers, numeric-like strings, dates and strings. -/
def compareValues (a b : JSVal) : Rat :=
  if isNullish a then (if isNullish b then 0 else -1)
  else if isNullish b then 1
  else
    match a, b with
    | .num x, .num y => x - y
    | _, _ => cmpTail a b

theorem listCmp_antisymm (as bs : List Char) : listCmp bs as = -listCmp as bs := by
  induction as generalizing bs with
  | nil => cases bs <;> simp [listCmp]
  | cons a as ih =>
    cases bs with
    | nil => simp [listCmp]
    | cons b bs =>
      simp only [listCmp]
      rcases lt_trichotomy a b with h | h | h
      · rw [if_neg (lt_asymm h), if_pos h, if_pos h]
        norm_num
      · subst h
        rw [if_neg (lt_irrefl a), if_neg (lt_irrefl a), if_neg (lt_irrefl a),
          if_neg (lt_irrefl a)]
        exact ih bs
      · rw [if_pos h, if_neg (lt_asymm h), if_pos h]

theorem cmpTail_antisymm (a b : JSVal) : cmpTail b a = -cmpTail a b := by
  unfold cmpTail
  by_cases h1 : (jsParseFloat (jsToString a)).isSome = true <;>
    by_cases h2 : (jsParseFloat (jsToString b)).isSome = true <;>
    by_cases h3 : isFloatOrInt a = true <;>
    by_cases h4 : isFloatOrInt b = true <;>
    simp only [h1, h2, h3, h4, Bool.false_and, Bool.and_false, Bool.true_and,
      Bool.and_true, if_true, if_false, Bool.false_eq_true] <;>
    try rw [neg_sub]
  all_goals
    rcases hA : parseDate (.str (jsToString a)) with _ | x <;>
      rcases hB : parseDate (.str (jsToString b)) with _ | y <;>
      simp only [hA, hB] <;> norm_num
  all_goals rw [listCmp_antisymm]; push_cast; ring

/-- C5 counterexample: `compareValues` is not transitive. The numeric
string `"5"` sorts before the numeric string `"2000"` (numeric
comparison), `"2000"` sorts before the date string `"2000-06-15"`
(both parse as dates), yet `"5"` sorts after `"2000-06-15"` (a date
sorts before a non-date). -/
theorem compareValues_not_transitive :
    compareValues (.str "5") (.str "2000") < 0 ∧
    compareValues (.str "2000") (.str "2000-06-15") < 0 ∧
    0 < compareValues (.str "5") (.str "2000-06-15") := by
  refine ⟨?_, ?_, ?_⟩
  all_goals with_unfolding_all decide

theorem compareValues_antisymm_aux (a b : JSVal) :
    compareValues b a = -compareValues a b := by
  unfold compareValues
  by_cases ha : isNullish a = true <;> by_cases hb : isNullish b = true <;>
    simp only [ha, hb, if_true, if_false, Bool.false_eq_true, neg_zero, neg_neg] <;>
    try norm_num
  cases a <;> cases b <;> simp_all [isNullish] <;>
    first
    | rw [neg_sub]
    | exact cmpTail_antisymm _ _

theorem compareValues_nullFirst_aux (v : JSVal) (hv : isNullish v = false) :
    compareValues .null v < 0 ∧ compareValues .undef v < 0 ∧
      0 < compareValues v .null ∧ 0 < compareValues v .undef := by
  have hn : isNullish JSVal.null = true := rfl
  have hu : isNullish JSVal.undef = true := rfl
  refine ⟨?_, ?_, ?_, ?_⟩ <;>
    simp only [compareValues, hn, hu, hv, if_true, if_false, Bool.false_eq_true] <;>
    norm_num

/-- C5 amended: `compareValues` is antisymmetric on all values
(`compareValues b a = -compareValues a b`), null and undefined sort
before every other value and compare equal to each other, and the
comparison is transitive on numbers; full transitivity fails on mixed
string fixtures (see the counterexample). -/
theorem compareValues_order_props :
    (∀ a b : JSVal, compareValues b a = -compareValues a b) ∧
    (∀ v : JSVal, isNullish v = false →
      compareValues .null v < 0 ∧ compareValues .undef v < 0 ∧
      0 < compareValues v .null ∧ 0 < compareValues v .undef) ∧
    (compareValues .null .undef = 0 ∧ compareValues .undef .null = 0 ∧
      compareValues .null .null = 0 ∧ compareValues .undef .undef = 0) ∧
    (∀ x y z : Rat, compareValues (.num x) (.num y) ≤ 0 →
      compareValues (.num y) (.num z) ≤ 0 → compareValues (.num x) (.num z) ≤ 0) := by
  refine ⟨compareValues_antisymm_aux, compareValues_nullFirst_aux,
    ⟨by decide, by decide, by decide, by decide⟩, ?_⟩
  intro x y z h1 h2
  have e : ∀ u w : Rat, compareValues (.num u) (.num w) = u - w := fun u w => rfl
  rw [e] at h1 h2 ⊢
  linarith

/-- C5 witness: the amended order properties at concrete values. -/
theorem compareValues_order_props_witness :
    compareValues .null (.num 3) < 0 ∧
    (compareValues (.num 1) (.num 2) ≤ 0 → compareValues (.num 2) (.num 3) ≤ 0 →
      compareValues (.num 1) (.num 3) ≤ 0) :=
  ⟨(compareValues_order_props.2.1 (.num 3) (by decide)).1,
    compareValues_order_props.2.2.2 1 2 3⟩

/-! ## shouldSumData — the aggregation policy

Source (`part_004`): `shouldSumData`. Grouping uses a plain JavaScript
object (`grouped[xValue]`), so group keys are the *string coercions* of
the raw X values, and records with null/undefined X are skipped.
-/

/-- Append `r` to the group stored at string key `k`, creating the group
at the end when the key is new (JavaScript object semantics: in-place
update of an existing property, insertion order preserved). -/
def groupPush (m : List (String × List Record)) (k : String) (r : Record) :
    List (String × List Record) :=
  match m with
  | [] => [(k, [r])]
  | (k', g) :: rest =>
    if k' = k then (k', g ++ [r]) :: rest else (k', g) :: groupPush rest k r

/-- The group stored at key `k` (empty when absent). -/
def lookupGroup : List (String × List Record) → String → List Record
  | [], _ => []
  | (k', g) :: rest, k => if k' = k then g else lookupGroup rest k

/-- The `records.forEach` grouping loop of `shouldSumData`. -/
def groupByXAux (x : String) :
    List (String × List Record) → List Record → List (String × List Record)
  | m, [] => m
  | m, r :: rs =>
    groupByXAux x
      (let v := getField r x
       if isNullish v then m else groupPush m (jsToString v) r) rs

/-- Group the records by the string coercion of their X value, skipping
records whose X value is null or undefined. -/
def groupByX (records : List Record) (x : String) : List (String × List Record) :=
  groupByXAux x [] records

/-- `shouldSumData(records, xKey, yKey)`: false on empty/missing inputs,
else true when some group of equal (stringified) X has more than one
record and more than one `isFloatOrInt` Y value. -/
def shouldSumData (records : List Record) (xKey yKey : String) : Bool :=
  if records.isEmpty || xKey == "" || yKey == "" then false
  else
    (groupByX records xKey).any (fun g =>
      decide (1 < g.2.length) &&
      decide (1 < ((g.2.map (fun r => getField r yKey)).filter
        (fun v => isFloatOrInt v)).length))

/-- The declarative group of `k`: records whose X value is non-nullish
and stringifies to `k`, in order. -/
def xGroup (records : List Record) (x : String) (k : String) : List Record :=
  records.filter (fun r =>
    !isNullish (getField r x) && (jsToString (getField r x) == k))

theorem lookupGroup_groupPush (m : List (String × List Record)) (k k' : String)
    (r : Record) :
    lookupGroup (groupPush m k r) k' =
      if k' = k then lookupGroup m k' ++ [r] else lookupGroup m k' := by
  induction m with
  | nil =>
    by_cases h : k' = k
    · subst h; simp [groupPush, lookupGroup]
    · have h2 : ¬k = k' := fun hh => h hh.symm
      simp [groupPush, lookupGroup, h, h2]
  | cons p rest ih =>
    obtain ⟨kk, g⟩ := p
    simp only [groupPush]
    by_cases hkk : kk = k
    · subst hkk
      simp only [if_pos rfl]
      by_cases h' : kk = k'
      · subst h'
        simp [lookupGroup]
      · have h2 : ¬k' = kk := fun hh => h' hh.symm
        simp [lookupGroup, h', h2]
    · rw [if_neg hkk]
      by_cases h' : kk = k'
      · subst h'
        have h2 : ¬kk = k := hkk
        simp [lookupGroup, ih, fun hh : kk = k => h2 hh]
      · simp [lookupGroup, h', ih]

theorem keys_groupPush (m : List (String × List Record)) (k : String) (r : Record) :
    (groupPush m k r).map Prod.fst =
      if k ∈ m.map Prod.fst then m.map Prod.fst else m.map Prod.fst ++ [k] := by
  induction m with
  | nil => simp [groupPush]
  | cons p rest ih =>
    obtain ⟨kk, g⟩ := p
    simp only [groupPush]
    by_cases hkk : kk = k
    · subst hkk; simp
    · have h2 : ¬k = kk := fun hh => hkk hh.symm
      rw [if_neg hkk]
      simp only [List.map_cons, ih, List.mem_cons, h2, false_or]
      by_cases hmem : k ∈ rest.map Prod.fst <;> simp [hmem]

theorem nodup_keys_groupPush (m : List (String × List Record)) (k : String)
    (r : Record) (h : (m.map Prod.fst).Nodup) :
    ((groupPush m k r).map Prod.fst).Nodup := by
  rw [keys_groupPush]
  by_cases hmem : k ∈ m.map Prod.fst
  · simpa [hmem] using h
  · simp only [hmem, if_false]
    simp [List.nodup_append, h, hmem]

theorem nodup_keys_groupByXAux (x : String) (rs : List Record)
    (m : List (String × List Record)) (h : (m.map Prod.fst).Nodup) :
    ((groupByXAux x m rs).map Prod.fst).Nodup := by
  induction rs generalizing m with
  | nil => exact h
  | cons r rs ih =>
    simp only [groupByXAux]
    by_cases hv : isNullish (getField r x) = true
    · simp only [hv, if_true]
      exact ih m h
    · simp only [hv, if_false, Bool.false_eq_true]
      exact ih _ (nodup_keys_groupPush _ _ _ h)

theorem lookupGroup_of_mem (m : List (String × List Record))
    (h : (m.map Prod.fst).Nodup) (k : String) (g : List Record)
    (hm : (k, g) ∈ m) : lookupGroup m k = g := by
  induction m with
  | nil => cases hm
  | cons p rest ih =>
    obtain ⟨kk, g'⟩ := p
    rcases List.mem_cons.mp hm with heq | htail
    · obtain ⟨rfl, rfl⟩ := Prod.mk.injEq .. ▸ heq
      · simp [lookupGroup]
    · have hkk : kk ≠ k := by
        intro hh
        subst hh
        have : kk ∈ rest.map Prod.fst := by
          exact List.mem_map.mpr ⟨(kk, g), htail, rfl⟩
        exact (List.nodup_cons.mp h).1 this
      simp only [lookupGroup, hkk, if_false]
      exact ih (List.nodup_cons.mp h).2 htail

theorem mem_of_lookupGroup_ne_nil (m : List (String × List Record)) (k : String)
    (h : lookupGroup m k ≠ []) : (k, lookupGroup m k) ∈ m := by
  induction m with
  | nil => simp [lookupGroup] at h
  | cons p rest ih =>
    obtain ⟨kk, g⟩ := p
    by_cases hkk : kk = k
    · subst hkk
      simp [lookupGroup]
    · simp only [lookupGroup, hkk, if_false] at h ⊢
      exact List.mem_cons_of_mem _ (ih h)

theorem lookupGroup_groupByXAux (x : String) (rs : List Record) (k : String)
    (m : List (String × List Record)) :
    lookupGroup (groupByXAux x m rs) k = lookupGroup m k ++ xGroup rs x k := by
  induction rs generalizing m with
  | nil => simp [groupByXAux, xGroup]
  | cons r rs ih =>
    simp only [groupByXAux, xGroup, List.filter_cons]
    by_cases hv : isNullish (getField r x) = true
    · simp only [hv, if_true, Bool.not_true, Bool.false_and, if_false]
      exact ih m
    · simp only [hv, if_false, Bool.false_eq_true, Bool.not_eq_true']
      rw [ih, lookupGroup_groupPush]
      by_cases hk : k = jsToString (getField r x)
      · subst hk
        simp [hv, xGroup]
      · have : (jsToString (getField r x) == k) = false := by
          simp [beq_eq_false_iff_ne]
          exact fun hh => hk hh.symm
        simp [hk, this, hv, xGroup]

theorem lookupGroup_groupByX (records : List Record) (x k : String) :
    lookupGroup (groupByX records x) k = xGroup records x k := by
  rw [groupByX, lookupGroup_groupByXAux]
  rfl

/-- C3 counterexample: taking the claim literally — grouping *all*
records by their raw X value — `shouldSumData` should report `true` for
two records sharing the raw X value `null` with two numeric Y values,
but the code skips null-X records and returns `false`. -/
theorem shouldSumData_cex :
    shouldSumData
      [[("x", JSVal.null), ("y", JSVal.str "1")],
       [("x", JSVal.null), ("y", JSVal.str "2")]] "x" "y" = false ∧
    (1 < (([[("x", JSVal.null), ("y", JSVal.str "1")],
            [("x", JSVal.null), ("y", JSVal.str "2")]] : List Record).filter
        (fun r => getField r "x" == JSVal.null)).length ∧
      1 < ((([[("x", JSVal.null), ("y", JSVal.str "1")],
              [("x", JSVal.null), ("y", JSVal.str "2")]] : List Record).filter
          (fun r => getField r "x" == JSVal.null)).map
        (fun r => getField r "y")).countP (fun v => isFloatOrInt v)) :=
  ⟨by decide, by decide, by decide⟩

/-- C3 amended: `shouldSumData` returns true iff both keys are nonempty
and, considering only records whose X value is neither null nor
undefined and grouping them by the *string coercion* of their X value,
some group has more than one record and more than one numeric
(`isFloatOrInt`) Y value; empty or missing inputs yield false. -/
theorem shouldSumData_iff (records : List Record) (x y : String) :
    shouldSumData records x y = true ↔
      x ≠ "" ∧ y ≠ "" ∧ ∃ k : String,
        1 < (xGroup records x k).length ∧
        1 < (((xGroup records x k).map (fun r => getField r y)).filter
          (fun v => isFloatOrInt v)).length := by
  unfold shouldSumData
  by_cases hg : (records.isEmpty || x == "" || y == "") = true
  · rw [if_pos hg]
    simp only [Bool.false_eq_true, false_iff]
    rintro ⟨hx, hy, k, h1, _⟩
    simp only [Bool.or_eq_true, beq_iff_eq, List.isEmpty_iff] at hg
    rcases hg with (hg | hg) | hg
    · subst hg; simp [xGroup] at h1
    · exact hx hg
    · exact hy hg
  · rw [if_neg hg]
    simp only [Bool.or_eq_true, beq_iff_eq, List.isEmpty_iff, not_or] at hg
    obtain ⟨⟨hrec, hx⟩, hy⟩ := hg
    rw [List.any_eq_true]
    constructor
    · rintro ⟨g, hgmem, hgp⟩
      obtain ⟨k, grp⟩ := g
      have hnodup := nodup_keys_groupByXAux x records [] (by simp)
      have hlook : lookupGroup (groupByX records x) k = grp :=
        lookupGroup_of_mem _ hnodup _ _ hgmem
      rw [lookupGroup_groupByX] at hlook
      simp only [Bool.and_eq_true, decide_eq_true_eq] at hgp
      exact ⟨hx, hy, k, hlook ▸ hgp.1, hlook ▸ hgp.2⟩
    · rintro ⟨-, -, k, h1, h2⟩
      have hne : xGroup records x k ≠ [] := by
        intro hnil
        rw [hnil] at h1
        simp at h1
      have hlk : lookupGroup (groupByX records x) k ≠ [] := by
        rw [lookupGroup_groupByX]; exact hne
      refine ⟨(k, lookupGroup (groupByX records x) k),
        mem_of_lookupGroup_ne_nil _ _ hlk, ?_⟩
      simp only [Bool.and_eq_true, decide_eq_true_eq]
      rw [lookupGroup_groupByX]
      exact ⟨h1, h2⟩

/-- C3 witness: the amended characterization at a concrete duplicate-X
dataset (two records at X = "a" with numeric Y values). -/
theorem shouldSumData_iff_witness :
    shouldSumData
      [[("x", JSVal.str "a"), ("y", JSVal.str "1")],
       [("x", JSVal.str "a"), ("y", JSVal.str "2")]] "x" "y" = true :=
  (shouldSumData_iff _ "x" "y").mpr
    ⟨by decide, by decide, "a", by decide, by decide⟩

/-! ## Field-name classifiers and chart-type policy

Source (`part_004`): `isTimeField`, `isValueField`, `shouldUseBarChart`.
-/

/-- A field (column) description; identity is the `id`. -/
structure Field where
  id : String
deriving DecidableEq, Repr

/-- `sub` occurs as a contiguous run inside `hay`
(JS `String.prototype.includes`). -/
def listHasInfix (sub : List Char) : List Char → Bool
  | [] => sub.isEmpty
  | c :: rest => sub.isPrefixOf (c :: rest) || listHasInfix sub rest

/-- `s.includes(sub)`. -/
def containsSub (s sub : String) : Bool :=
  listHasInfix sub.data s.data

/-- The time-keyword list of `isTimeField`. -/
def timeKeywords : List String :=
  ["year", "month", "date", "time", "timestamp", "day", "week",
   "quarter", "period", "datetime", "created", "updated", "when"]

/-- `isTimeField(fieldName)`: the lower-cased name contains a time
keyword. -/
def isTimeField (fieldName : String) : Bool :=
  timeKeywords.any (fun kw => containsSub fieldName.toLower kw)

/-- The value-keyword list of `isValueField`. -/
def valueKeywords : List String :=
  ["value", "amount", "count", "total", "sum", "number", "quantity",
   "population", "energy", "power", "consumption", "production",
   "revenue", "cost", "price", "rate", "percentage", "percent",
   "score", "rating", "index", "level", "volume", "capacity"]

/-- `isValueField(fieldName)`: the lower-cased name contains a value
keyword. -/
def isValueField (fieldName : String) : Bool :=
  valueKeywords.any (fun kw => containsSub fieldName.toLower kw)

/-- The non-null X values of the records
(`records.map(r => r[xKey]).filter(v => v !== undefined && v !== null)`). -/
def xValuesOf (records : List Record) (xKey : String) : List JSVal :=
  (records.map (fun r => getField r xKey)).filter (fun v => !isNullish v)

/-- Whether the field registered under `xKey` is a time field (false when
no such field exists, as in `xField && isTimeField(xField.id)`). -/
def xFieldIsTime (fields : List Field) (xKey : String) : Bool :=
  match fields.find? (fun f => f.id == xKey) with
  | some f => isTimeField f.id
  | none => false

/-- The numeric fraction of the X values
(`numericCount / totalCount`; `0.8` is the exact rational `4/5` in the
model). -/
def xNumericFrac (records : List Record) (xKey : String) : Rat :=
  (((xValuesOf records xKey).filter (fun v => isFloatOrInt v)).length : Rat) /
    ((xValuesOf records xKey).length : Rat)

/-- The number of distinct X values (`new Set(xValues).size`). -/
def xUniqueCount (records : List Record) (xKey : String) : Nat :=
  (xValuesOf records xKey).dedup.length

/-- The unique-to-total fraction of the X values. -/
def xUniqueFrac (records : List Record) (xKey : String) : Rat :=
  ((xUniqueCount records xKey : Nat) : Rat) / ((xValuesOf records xKey).length : Rat)

/-- `shouldUseBarChart(records, xKey, fields)`: false on missing/empty
inputs, no X values, or a time X field; otherwise bar iff the X values
are not more than 80% numeric, or have fewer than 20 unique values with
a unique ratio below 50%. -/
def shouldUseBarChart (records : List Record) (xKey : String)
    (fields : List Field) : Bool :=
  if records.isEmpty || xKey == "" then false
  else if (xValuesOf records xKey).isEmpty then false
  else if xFieldIsTime fields xKey then false
  else
    let isNumeric : Bool := decide ((4 : Rat) / 5 < xNumericFrac records xKey)
    !isNumeric ||
      (decide (xUniqueCount records xKey < 20) &&
       decide (xUniqueFrac records xKey < 1 / 2))

/-- Five records whose X values are 80% numeric (exactly at the
boundary) and pairwise distinct. -/
def barBoundaryRecords : List Record :=
  [[("x", JSVal.str "a")], [("x", JSVal.str "1")], [("x", JSVal.str "2")],
   [("x", JSVal.str "3")], [("x", JSVal.str "4")]]

/-- C4 counterexample: at exactly 80% numeric X values the code treats
the column as *not* numeric (strict `> 0.8`) and prefers a bar chart,
while the claim (`not at least 80% numeric`) predicts a line chart for
this all-unique numeric-ish column. -/
theorem shouldUseBarChart_cex :
    shouldUseBarChart barBoundaryRecords "x" [⟨"x"⟩] = true ∧
    ¬(xNumericFrac barBoundaryRecords "x" < 4 / 5 ∨
      (4 / 5 ≤ xNumericFrac barBoundaryRecords "x" ∧
        xUniqueCount barBoundaryRecords "x" < 20 ∧
        xUniqueFrac barBoundaryRecords "x" < 1 / 2)) := by
  constructor
  · with_unfolding_all decide
  · with_unfolding_all decide

/-- C4 amended: `shouldUseBarChart` returns true exactly when the input
is non-degenerate (records present, key nonempty, some non-null X
value), the X field is not a time field, and the X values are either not
*more than* 80% numeric, or have fewer than 20 unique values and a
unique-to-total ratio below 50%; every other case returns false. -/
theorem shouldUseBarChart_iff (records : List Record) (xKey : String)
    (fields : List Field) :
    shouldUseBarChart records xKey fields = true ↔
      records ≠ [] ∧ xKey ≠ "" ∧ xValuesOf records xKey ≠ [] ∧
      xFieldIsTime fields xKey = false ∧
      (¬((4 : Rat) / 5 < xNumericFrac records xKey) ∨
        (xUniqueCount records xKey < 20 ∧ xUniqueFrac records xKey < 1 / 2)) := by
  unfold shouldUseBarChart
  by_cases h1 : (records.isEmpty || xKey == "") = true
  · rw [if_pos h1]
    simp only [Bool.false_eq_true, false_iff]
    simp only [Bool.or_eq_true, beq_iff_eq, List.isEmpty_iff] at h1
    rintro ⟨hr, hx, -, -, -⟩
    rcases h1 with h1 | h1
    · exact hr h1
    · exact hx h1
  · rw [if_neg h1]
    simp only [Bool.or_eq_true, beq_iff_eq, List.isEmpty_iff, not_or] at h1
    obtain ⟨hr, hx⟩ := h1
    by_cases h2 : (xValuesOf records xKey).isEmpty = true
    · rw [if_pos h2]
      simp only [Bool.false_eq_true, false_iff]
      rintro ⟨-, -, hv, -, -⟩
      exact hv (List.isEmpty_iff.mp h2)
    · rw [if_neg h2]
      by_cases h3 : xFieldIsTime fields xKey = true
      · rw [if_pos h3]
        simp only [Bool.false_eq_true, false_iff]
        rintro ⟨-, -, -, ht, -⟩
        rw [h3] at ht
        exact Bool.true_eq_false ▸ ht
      · rw [if_neg h3]
        simp only [Bool.or_eq_true, Bool.not_eq_true', Bool.and_eq_true,
          decide_eq_true_eq, decide_eq_false_iff_not]
        constructor
        · rintro h
          refine ⟨hr, hx, fun hnil => h2 (List.isEmpty_iff.mpr hnil),
            Bool.not_eq_true _ ▸ (by simpa using h3), ?_⟩
          exact h
        · rintro ⟨-, -, -, -, h⟩
          exact h

/-- C4 witness: a single non-numeric categorical X value prefers a bar
chart, through the amended characterization. -/
theorem shouldUseBarChart_iff_witness :
    shouldUseBarChart [[("x", JSVal.str "a")]] "x" [⟨"x"⟩] = true :=
  (shouldUseBarChart_iff _ "x" _).mpr
    ⟨by decide, by decide, by decide, by with_unfolding_all decide,
      Or.inl (by with_unfolding_all decide)⟩

/-! ## calculateDomain — the axis-range calculator

Source (`part_004`): `calculateDomain`. `0.05`, `0.1`, `0.2` and `1.1`
are the exact rationals `1/20`, `1/10`, `1/5` and `11/10` in the model.
-/

/-- An axis bound: the `"auto"` sentinel or a numeric bound. -/
inductive DomainVal where
  | auto
  | val (q : Rat)
deriving DecidableEq, Repr

/-- The four axis bounds returned by `calculateDomain`. -/
structure Domain where
  xMin : DomainVal
  xMax : DomainVal
  yMin : DomainVal
  yMax : DomainVal
deriving DecidableEq, Repr

/-- A processed dataset: series name to list of points; every value is a
list (array), so the source's `Array.isArray` test always passes. -/
abbrev Dataset := List (String × List Record)

/-- All non-null X values across all series, in iteration order. -/
def allXValues (dataset : Dataset) (xKey : String) : List JSVal :=
  (dataset.map (fun s =>
    (s.2.map (fun p => getField p xKey)).filter (fun v => !isNullish v))).flatten

/-- All non-null Y values across all series, in iteration order. -/
def allYValues (dataset : Dataset) (yKey : String) : List JSVal :=
  (dataset.map (fun s =>
    (s.2.map (fun p => getField p yKey)).filter (fun v => !isNullish v))).flatten

/-- `Math.min` over a list (default 0; only applied to nonempty lists). -/
def listMin : List Rat → Rat
  | [] => 0
  | q :: rest => rest.foldl min q

/-- `Math.max` over a list (default 0; only applied to nonempty lists). -/
def listMax : List Rat → Rat
  | [] => 0
  | q :: rest => rest.foldl max q

/-- The numeric interpretation the domain calculator uses for a value it
has classified as numeric-like: a number as itself, anything else through
`parseFloat`. -/
def domainNumOf (v : JSVal) : Rat :=
  match v with
  | .num q => q
  | _ => (jsParseFloat (jsToString v)).getD 0

/-- The X-axis range computation of `calculateDomain`: prefer a uniform
date/timestamp interpretation, then a uniform numeric one, else auto;
5% padding; zero ranges yield auto. -/
def calcXDomain (allX : List JSVal) : DomainVal × DomainVal :=
  if allX.isEmpty then (.auto, .auto)
  else
    let numericX := (allX.filter (fun v => v.isNum || isFloatOrInt v)).map domainNumOf
    let dateX : List Rat :=
      if numericX.length < allX.length then
        (allX.map (fun v =>
          match v with
          | .num q => some q
          | _ => parseDate (.str (jsToString v)))).reduceOption
      else numericX
    if dateX.length = allX.length && 0 < dateX.length then
      let mn := listMin dateX
      let mx := listMax dateX
      if mx - mn = 0 then (.auto, .auto)
      else (.val (mn - (mx - mn) * (1 / 20)), .val (mx + (mx - mn) * (1 / 20)))
    else
      let numericX2 := (allX.filter (fun v => isFloatOrInt v)).map
        (fun v => (jsParseFloat (jsToString v)).getD 0)
      if !numericX2.isEmpty then
        let mn := listMin numericX2
        let mx := listMax numericX2
        if mx - mn = 0 then (.auto, .auto)
        else (.val (mn - (mx - mn) * (1 / 20)), .val (mx + (mx - mn) * (1 / 20)))
      else (.auto, .auto)

/-- The Y-axis range computation of `calculateDomain`: numeric values
only; zero range at 0 gives `[0, 1]`, zero range elsewhere pads by 20%
of the absolute value; nonzero ranges pad by 10% (20%∨0.1 absolute for
small ranges, 5% for large), with zero-crossing symmetrization and
clamping to 0 for single-signed data. -/
def calcYDomain (allY : List JSVal) : DomainVal × DomainVal :=
  let numericY := (allY.filter (fun v => isFloatOrInt v)).map
    (fun v => (jsParseFloat (jsToString v)).getD 0)
  if numericY.isEmpty then (.auto, .auto)
  else
    let mn := listMin numericY
    let mx := listMax numericY
    let range := mx - mn
    if range = 0 then
      if mn = 0 then (.val 0, .val 1)
      else (.val (mn - |mn| * (1 / 5)), .val (mx + |mn| * (1 / 5)))
    else
      let pad0 := range * (1 / 10)
      let pad1 := if range < 1 then max (range * (1 / 5)) (1 / 10) else pad0
      let pad := if 1000 < range then range * (1 / 20) else pad1
      if mn < 0 ∧ 0 < mx then
        let maxAbs := max |mn| |mx|
        (.val (-(maxAbs * (11 / 10))), .val (maxAbs * (11 / 10)))
      else if 0 ≤ mn then
        (if mn < range * (1 / 10) then .val 0 else .val (max 0 (mn - pad)),
          .val (mx + pad))
      else (.val (mn - pad), .val (min 0 (mx + pad)))

/-- `calculateDomain(dataset, xKey, yKey)`: auto everywhere for
missing/empty inputs, else the independent X and Y range computations on
the collected values. -/
def calculateDomain (dataset : Dataset) (xKey yKey : String) : Domain :=
  if dataset.isEmpty || xKey == "" || yKey == "" then ⟨.auto, .auto, .auto, .auto⟩
  else
    let xP := calcXDomain (allXValues dataset xKey)
    let yP := calcYDomain (allYValues dataset yKey)
    ⟨xP.1, xP.2, yP.1, yP.2⟩

theorem foldl_min_const (l : List Rat) (c : Rat) (h : ∀ q ∈ l, q = c) :
    l.foldl min c = c := by
  induction l with
  | nil => rfl
  | cons q rest ih =>
    have hq : q = c := h q (by simp)
    subst hq
    rw [List.foldl_cons, min_self]
    exact ih (fun q hq => h q (by simp [hq]))

theorem foldl_max_const (l : List Rat) (c : Rat) (h : ∀ q ∈ l, q = c) :
    l.foldl max c = c := by
  induction l with
  | nil => rfl
  | cons q rest ih =>
    have hq : q = c := h q (by simp)
    subst hq
    rw [List.foldl_cons, max_self]
    exact ih (fun q hq => h q (by simp [hq]))

theorem listMin_const (l : List Rat) (c : Rat) (hne : l ≠ [])
    (h : ∀ q ∈ l, q = c) : listMin l = c := by
  cases l with
  | nil => exact absurd rfl hne
  | cons q rest =>
    have hq : q = c := h q (by simp)
    subst hq
    exact foldl_min_const rest q (fun p hp => h p (by simp [hp]))

theorem listMax_const (l : List Rat) (c : Rat) (hne : l ≠ [])
    (h : ∀ q ∈ l, q = c) : listMax l = c := by
  cases l with
  | nil => exact absurd rfl hne
  | cons q rest =>
    have hq : q = c := h q (by simp)
    subst hq
    exact foldl_max_const rest q (fun p hp => h p (by simp [hp]))

theorem calcYDomain_const (allY : List JSVal) (v₀ : Rat) (hne : allY ≠ [])
    (hall : ∀ v ∈ allY, isFloatOrInt v = true ∧
      jsParseFloat (jsToString v) = some v₀) :
    calcYDomain allY =
      (if v₀ = 0 then (.val 0, .val 1)
       else (.val (v₀ - |v₀| * (1 / 5)), .val (v₀ + |v₀| * (1 / 5)))) := by
  unfold calcYDomain
  have hfilter : allY.filter (fun v => isFloatOrInt v) = allY :=
    List.filter_eq_self.mpr (fun v hv => (hall v hv).1)
  rw [hfilter]
  set numericY := allY.map (fun v => (jsParseFloat (jsToString v)).getD 0) with hnum
  have hconst : ∀ q ∈ numericY, q = v₀ := by
    intro q hq
    rw [hnum] at hq
    obtain ⟨v, hv, rfl⟩ := List.mem_map.mp hq
    rw [(hall v hv).2]
    rfl
  have hnumne : numericY ≠ [] := by
    rw [hnum]
    cases allY with
    | nil => exact absurd rfl hne
    | cons a l => simp
  have hmin : listMin numericY = v₀ := listMin_const _ _ hnumne hconst
  have hmax : listMax numericY = v₀ := listMax_const _ _ hnumne hconst
  rw [if_neg (by simp [List.isEmpty_iff, hnumne]), hmin, hmax]
  simp [sub_self]

/-- C6: for a dataset whose (present) Y values are all numeric and all
parse to the same value `v`, `calculateDomain` returns the Y bounds
`[0, 1]` when `v = 0` and `[v − 0.2·|v|, v + 0.2·|v|]` otherwise. -/
theorem calculateDomain_constY (dataset : Dataset) (xKey yKey : String)
    (v₀ : Rat) (hd : dataset ≠ []) (hx : xKey ≠ "") (hy : yKey ≠ "")
    (hne : allYValues dataset yKey ≠ [])
    (hall : ∀ v ∈ allYValues dataset yKey, isFloatOrInt v = true ∧
      jsParseFloat (jsToString v) = some v₀) :
    (calculateDomain dataset xKey yKey).yMin =
      .val (if v₀ = 0 then 0 else v₀ - |v₀| * (1 / 5)) ∧
    (calculateDomain dataset xKey yKey).yMax =
      .val (if v₀ = 0 then 1 else v₀ + |v₀| * (1 / 5)) := by
  unfold calculateDomain
  rw [if_neg (by simp [List.isEmpty_iff, hd, hx, hy])]
  rw [calcYDomain_const _ v₀ hne hall]
  by_cases h0 : v₀ = 0 <;> simp [h0]

/-- C6 witness: a singleton series with constant Y value 5 gets the
padded Y domain `[4, 6]`. -/
theorem calculateDomain_constY_witness :
    (calculateDomain [("s", [[("x", JSVal.str "1"), ("y", JSVal.num 5)]])]
        "x" "y").yMin = .val 4 ∧
    (calculateDomain [("s", [[("x", JSVal.str "1"), ("y", JSVal.num 5)]])]
        "x" "y").yMax = .val 6 := by
  have h := calculateDomain_constY
    [("s", [[("x", JSVal.str "1"), ("y", JSVal.num 5)]])] "x" "y" 5
    (by decide) (by decide) (by decide)
    (by with_unfolding_all decide) (by with_unfolding_all decide)
  have h5 : ((5 : Rat) ≠ 0) := by norm_num
  constructor
  · rw [h.1, if_neg h5]
    norm_num
  · rw [h.2, if_neg h5]
    norm_num

/-! ## Dataset reshaper, summing path

Source (`src/GovDataChart.js`, `processedDataset` with `sumData=true`):
pre-sort the records by X with `compareValues`, convert date-like X
values to timestamps, then accumulate per series (a JavaScript `Map`
keyed by the raw X value — not string-coerced) and emit one sorted point
list per series. A point `{[xKey]: x, [yKey]: y}` with distinct keys is
modelled as the pair `(x, y)`.
-/

/-- Insert `x` into `l`, before the first element that does not have to
precede it: the insertion step of a stable insertion sort. -/
def jsInsert (le : α → α → Bool) (x : α) : List α → List α
  | [] => [x]
  | y :: ys => if le x y then x :: y :: ys else y :: jsInsert le x ys

/-- Stable insertion sort, modelling `Array.prototype.sort` (stable per
ES2019) under a comparator-induced `le`. -/
def jsSort (le : α → α → Bool) : List α → List α
  | [] => []
  | x :: xs => jsInsert le x (jsSort le xs)

theorem jsInsert_perm (le : α → α → Bool) (x : α) (l : List α) :
    List.Perm (jsInsert le x l) (x :: l) := by
  induction l with
  | nil => exact List.Perm.refl _
  | cons y ys ih =>
    simp only [jsInsert]
    by_cases h : le x y = true
    · rw [if_pos h]
    · rw [if_neg h]
      exact (ih.cons y).trans (List.Perm.swap x y ys)

theorem jsSort_perm (le : α → α → Bool) (l : List α) :
    List.Perm (jsSort le l) l := by
  induction l with
  | nil => exact List.Perm.refl _
  | cons x xs ih =>
    exact (jsInsert_perm le x (jsSort le xs)).trans (ih.cons x)

/-- The effective series key:
`series && series.trim() !== "" ? series : "default"`. -/
def seriesKeyOf (series : Option String) : String :=
  match series with
  | some s => if s = "" then "default" else if s.trim = "" then "default" else s
  | none => "default"

/-- The series identifier of a record:
`String(item[seriesKey] || "default")`. -/
def seriesIdOf (seriesKey : String) (r : Record) : String :=
  let v := getField r seriesKey
  if jsFalsy v then "default" else jsToString v

/-- The accumulator update for a repeated X value: sum when both the
existing and incoming Y are numbers, prefer the numeric one otherwise,
keep the existing value when neither is numeric. -/
def combineY (existing incoming : JSVal) : JSVal :=
  match existing, incoming with
  | .num a, .num b => .num (a + b)
  | _, .num b => .num b
  | .num a, _ => .num a
  | _, _ => existing

/-- `Map.set`-style update of the per-series X map: update the existing
entry in place through `combineY`, or append a new entry. -/
def xMapAdd (m : List (JSVal × JSVal)) (x y : JSVal) : List (JSVal × JSVal) :=
  match m with
  | [] => [(x, y)]
  | (x', v) :: rest =>
    if x' = x then (x', combineY v y) :: rest else (x', v) :: xMapAdd rest x y

/-- Update of the outer series map. -/
def outerAdd (m : List (String × List (JSVal × JSVal))) (sid : String)
    (x y : JSVal) : List (String × List (JSVal × JSVal)) :=
  match m with
  | [] => [(sid, xMapAdd [] x y)]
  | (s, xm) :: rest =>
    if s = sid then (s, xMapAdd xm x y) :: rest
    else (s, xm) :: outerAdd rest sid x y

/-- The record loop of the summing reshaper. -/
def buildSeriesMaps (xKey yKey seriesKey : String) :
    List (String × List (JSVal × JSVal)) → List Record →
    List (String × List (JSVal × JSVal))
  | m, [] => m
  | m, r :: rs =>
    buildSeriesMaps xKey yKey seriesKey
      (outerAdd m (seriesIdOf seriesKey r) (getField r xKey)
        (parseFloatOrText (getField r yKey))) rs

/-- The final numeric coercion of an emitted Y value
(`typeof yValue === "number" ? yValue : parseFloatOrText(yValue)`). -/
def finalizeY (y : JSVal) : JSVal :=
  if y.isNum then y else parseFloatOrText y

/-- Emit the per-series entry list: finalized Y values, sorted ascending
by X under `compareValues`. -/
def entriesOf (xm : List (JSVal × JSVal)) : List (JSVal × JSVal) :=
  jsSort (fun a b => decide (compareValues a.1 b.1 ≤ 0))
    (xm.map (fun p => (p.1, finalizeY p.2)))

/-- The summing reshaper on the (already sorted and date-converted)
record list. -/
def sumReshape (records : List Record) (xKey yKey seriesKey : String) :
    List (String × List (JSVal × JSVal)) :=
  (buildSeriesMaps xKey yKey seriesKey [] records).map
    (fun s => (s.1, entriesOf s.2))

/-- The pre-sort of the records by X value under `compareValues`. -/
def sortRecordsByX (records : List Record) (xKey : String) : List Record :=
  jsSort (fun a b =>
    decide (compareValues (getField a xKey) (getField b xKey) ≤ 0)) records

/-- `sampleXValue && isDateString(String(sampleXValue))` on the first
record. -/
def xKeyIsDateOf (records : List Record) (xKey : String) : Bool :=
  match records.head? with
  | some r =>
    let v := getField r xKey
    !jsFalsy v && isDateString (.str (jsToString v))
  | none => false

/-- `{...record, [k]: v}`: replace the binding in place, or append. -/
def setField (r : Record) (k : String) (v : JSVal) : Record :=
  if (r.find? (fun p => p.1 = k)).isSome then
    r.map (fun p => if p.1 = k then (k, v) else p)
  else r ++ [(k, v)]

/-- Rewrite every record's X value to its parsed timestamp where
parseable. -/
def convertDateX (records : List Record) (xKey : String) : List Record :=
  records.map (fun r =>
    match parseDate (.str (jsToString (getField r xKey))) with
    | some t => setField r xKey (.num t)
    | none => r)

/-- The full summing path of `processedDataset`: empty on a missing X or
Y key (`!xKey || !yKey`; a null records value is not representable in
the typed embedding and an empty records array passes the guard), else
sort by X, convert date-like X values when the first record's X is
date-like, then accumulate and emit. -/
def processedDatasetSum (records : List Record) (xKey yKey : String)
    (series : Option String) : List (String × List (JSVal × JSVal)) :=
  if xKey == "" || yKey == "" then []
  else
    let sorted := sortRecordsByX records xKey
    let converted :=
      if xKeyIsDateOf records xKey then convertDateX sorted xKey else sorted
    sumReshape converted xKey yKey (seriesKeyOf series)

/-- The records of one series/X-value cell, in order. -/
def sxGroup (records : List Record) (xKey seriesKey : String) (s : String)
    (x₀ : JSVal) : List Record :=
  records.filter (fun r =>
    seriesIdOf seriesKey r == s && getField r xKey == x₀)

/-- First-match association lookup with a default. -/
def assocGet {β : Type} (m : List (String × β)) (k : String) (d : β) : β :=
  match m with
  | [] => d
  | (k', v) :: rest => if k' = k then v else assocGet rest k d

/-- `Map.get` on the X map. -/
def xLookup (m : List (JSVal × JSVal)) (x : JSVal) : Option JSVal :=
  match m with
  | [] => none
  | (x', y) :: rest => if x' = x then some y else xLookup rest x

/-- One accumulation step of the X map cell: first value as is, repeats
through `combineY`. -/
def accumStep (acc : Option JSVal) (y : JSVal) : Option JSVal :=
  match acc with
  | none => some y
  | some v => some (combineY v y)

theorem xLookup_xMapAdd (m : List (JSVal × JSVal)) (x y x' : JSVal) :
    xLookup (xMapAdd m x y) x' =
      if x' = x then accumStep (xLookup m x') y else xLookup m x' := by
  induction m with
  | nil =>
    by_cases h : x' = x
    · subst h; simp [xMapAdd, xLookup, accumStep]
    · have h2 : ¬x = x' := fun hh => h hh.symm
      simp [xMapAdd, xLookup, accumStep, h, h2]
  | cons p rest ih =>
    obtain ⟨xx, v⟩ := p
    simp only [xMapAdd]
    by_cases hxx : xx = x
    · subst hxx
      simp only [if_pos rfl]
      by_cases h' : xx = x'
      · subst h'
        simp [xLookup, accumStep]
      · have h2 : ¬x' = xx := fun hh => h' hh.symm
        simp [xLookup, h', h2]
    · rw [if_neg hxx]
      by_cases h' : xx = x'
      · subst h'
        simp [xLookup, ih, fun hh : xx = x => hxx hh]
      · simp [xLookup, h', ih]

theorem assocGet_outerAdd (m : List (String × List (JSVal × JSVal)))
    (sid : String) (x y : JSVal) (s' : String) :
    assocGet (outerAdd m sid x y) s' [] =
      if s' = sid then xMapAdd (assocGet m s' []) x y
      else assocGet m s' [] := by
  induction m with
  | nil =>
    by_cases h : s' = sid
    · subst h; simp [outerAdd, assocGet]
    · have h2 : ¬sid = s' := fun hh => h hh.symm
      simp [outerAdd, assocGet, h, h2]
  | cons p rest ih =>
    obtain ⟨ss, xm⟩ := p
    simp only [outerAdd]
    by_cases hss : ss = sid
    · subst hss
      simp only [if_pos rfl]
      by_cases h' : ss = s'
      · subst h'
        simp [assocGet]
      · have h2 : ¬s' = ss := fun hh => h' hh.symm
        simp [assocGet, h', h2]
    · rw [if_neg hss]
      by_cases h' : ss = s'
      · subst h'
        simp [assocGet, ih, fun hh : ss = sid => hss hh]
      · simp [assocGet, h', ih]

theorem xLookup_buildSeriesMaps (xk yk sk : String) (s : String) (x₀ : JSVal)
    (rs : List Record) (m : List (String × List (JSVal × JSVal))) :
    xLookup (assocGet (buildSeriesMaps xk yk sk m rs) s []) x₀ =
      ((sxGroup rs xk sk s x₀).map
        (fun r => parseFloatOrText (getField r yk))).foldl accumStep
        (xLookup (assocGet m s []) x₀) := by
  induction rs generalizing m with
  | nil => simp [buildSeriesMaps, sxGroup]
  | cons r rs ih =>
    simp only [buildSeriesMaps, sxGroup, List.filter_cons]
    by_cases hs : seriesIdOf sk r = s
    · by_cases hx : getField r xk = x₀
      · have hcond : (seriesIdOf sk r == s && (getField r xk == x₀)) = true := by
          simp [hs, hx]
        rw [hcond]
        simp only [if_true, List.map_cons, List.foldl_cons]
        rw [ih, assocGet_outerAdd, if_pos hs.symm, xLookup_xMapAdd,
          if_pos hx.symm]
        rfl
      · have hcond : (seriesIdOf sk r == s && (getField r xk == x₀)) = false := by
          simp [hx]
        rw [hcond]
        simp only [Bool.false_eq_true, if_false]
        rw [ih, assocGet_outerAdd, if_pos hs.symm, xLookup_xMapAdd,
          if_neg (fun hh : x₀ = getField r xk => hx hh.symm)]
        rfl
    · have hcond : (seriesIdOf sk r == s && (getField r xk == x₀)) = false := by
        simp [hs]
      rw [hcond]
      simp only [Bool.false_eq_true, if_false]
      rw [ih, assocGet_outerAdd,
        if_neg (fun hh : s = seriesIdOf sk r => hs hh.symm)]
      rfl

theorem accum_nums (ys : List JSVal) (a : Rat)
    (h : ∀ y ∈ ys, y.isNum = true) :
    ys.foldl accumStep (some (.num a)) =
      some (.num (a + (ys.map JSVal.numPart).sum)) := by
  induction ys generalizing a with
  | nil => simp
  | cons y ys ih =>
    have hy : y.isNum = true := h y (by simp)
    obtain ⟨b, rfl⟩ : ∃ b, y = JSVal.num b := by
      cases y <;> simp_all [JSVal.isNum]
    simp only [List.foldl_cons, List.map_cons, List.sum_cons]
    rw [show accumStep (some (.num a)) (.num b) = some (.num (a + b)) from rfl]
    rw [ih (a + b) (fun y hy => h y (by simp [hy]))]
    congr 1
    rw [show (JSVal.num b).numPart = b from rfl]
    ring_nf

theorem xLookup_sum (recs : List Record) (xk yk sk s : String) (x₀ : JSVal)
    (hk : sxGroup recs xk sk s x₀ ≠ [])
    (hnum : ∀ r ∈ sxGroup recs xk sk s x₀,
      (parseFloatOrText (getField r yk)).isNum = true) :
    xLookup (assocGet (buildSeriesMaps xk yk sk [] recs) s []) x₀ =
      some (.num (((sxGroup recs xk sk s x₀).map
        (fun r => (parseFloatOrText (getField r yk)).numPart)).sum)) := by
  rw [xLookup_buildSeriesMaps]
  rw [show assocGet ([] : List (String × List (JSVal × JSVal))) s [] = []
    from rfl]
  rw [show xLookup [] x₀ = none from rfl]
  rcases hg : sxGroup recs xk sk s x₀ with _ | ⟨r0, rest⟩
  · exact absurd hg hk
  · have h0 : (parseFloatOrText (getField r0 yk)).isNum = true := by
      apply hnum; rw [hg]; simp
    obtain ⟨b, hb⟩ : ∃ b, parseFloatOrText (getField r0 yk) = JSVal.num b := by
      rcases hpp : parseFloatOrText (getField r0 yk) <;>
        simp_all [JSVal.isNum]
    simp only [List.map_cons, List.foldl_cons, hb]
    rw [show accumStep none (JSVal.num b) = some (JSVal.num b) from rfl]
    rw [accum_nums _ b (fun y hy => by
      obtain ⟨r, hr, rfl⟩ := List.mem_map.mp hy
      apply hnum
      rw [hg]
      simp [hr])]
    simp only [List.sum_cons, hb]
    congr 2
    rw [show (JSVal.num b).numPart = b from rfl]
    rw [List.map_map]
    rfl

theorem keys_xMapAdd (m : List (JSVal × JSVal)) (x y : JSVal) :
    (xMapAdd m x y).map Prod.fst =
      if x ∈ m.map Prod.fst then m.map Prod.fst
      else m.map Prod.fst ++ [x] := by
  induction m with
  | nil => simp [xMapAdd]
  | cons p rest ih =>
    obtain ⟨xx, v⟩ := p
    simp only [xMapAdd]
    by_cases hxx : xx = x
    · subst hxx; simp
    · have h2 : ¬x = xx := fun hh => hxx hh.symm
      rw [if_neg hxx]
      simp only [List.map_cons, ih, List.mem_cons, h2, false_or]
      by_cases hmem : x ∈ rest.map Prod.fst <;> simp [hmem]

theorem nodup_keys_xMapAdd (m : List (JSVal × JSVal)) (x y : JSVal)
    (h : (m.map Prod.fst).Nodup) : ((xMapAdd m x y).map Prod.fst).Nodup := by
  rw [keys_xMapAdd]
  by_cases hmem : x ∈ m.map Prod.fst
  · simpa [hmem] using h
  · simp only [hmem, if_false]
    simp [List.nodup_append, h, hmem]

theorem nodup_inner_buildSeriesMaps (xk yk sk : String) (rs : List Record)
    (m : List (String × List (JSVal × JSVal)))
    (h : ∀ s, ((assocGet m s []).map Prod.fst).Nodup) :
    ∀ s, ((assocGet (buildSeriesMaps xk yk sk m rs) s []).map Prod.fst).Nodup := by
  induction rs generalizing m with
  | nil => exact h
  | cons r rs ih =>
    simp only [buildSeriesMaps]
    apply ih
    intro s
    rw [assocGet_outerAdd]
    by_cases hs : s = seriesIdOf sk r
    · rw [if_pos hs]
      exact nodup_keys_xMapAdd _ _ _ (h s)
    · rw [if_neg hs]
      exact h s

theorem filter_map_entries (xm : List (JSVal × JSVal)) (x₀ v : JSVal)
    (hnd : (xm.map Prod.fst).Nodup) (hl : xLookup xm x₀ = some v) :
    (xm.map (fun p => (p.1, finalizeY p.2))).filter (fun p => p.1 == x₀) =
      [(x₀, finalizeY v)] := by
  induction xm with
  | nil => simp [xLookup] at hl
  | cons p rest ih =>
    obtain ⟨x', y⟩ := p
    simp only [xLookup] at hl
    simp only [List.map_cons, List.filter_cons]
    by_cases hx : x' = x₀
    · subst hx
      rw [if_pos rfl] at hl
      injection hl with hv
      subst hv
      have hx0 : ((x', finalizeY y).1 == x') = true := by simp
      rw [hx0]
      simp only [if_true]
      have hnotin : x' ∉ rest.map Prod.fst :=
        (List.nodup_cons.mp (by simpa using hnd)).1
      have hrest : (rest.map (fun p => (p.1, finalizeY p.2))).filter
          (fun p => p.1 == x') = [] := by
        rw [List.filter_eq_nil_iff]
        rintro a ha
        obtain ⟨q, hq, rfl⟩ := List.mem_map.mp ha
        simp only [beq_iff_eq]
        intro hkey
        exact hnotin (List.mem_map.mpr ⟨q, hq, hkey⟩)
      rw [hrest]
    · rw [if_neg hx] at hl
      have hcond : ((x', finalizeY y).1 == x₀) = false := by
        simp [hx]
      rw [hcond]
      simp only [Bool.false_eq_true, if_false]
      exact ih (List.nodup_cons.mp (by simpa using hnd)).2 hl

theorem assocGet_map_entries (m : List (String × List (JSVal × JSVal)))
    (s : String) :
    assocGet (m.map (fun p => (p.1, entriesOf p.2))) s [] =
      entriesOf (assocGet m s []) := by
  induction m with
  | nil => simp [assocGet, entriesOf, jsSort]
  | cons p rest ih =>
    obtain ⟨ss, xm⟩ := p
    simp only [List.map_cons, assocGet]
    by_cases h : ss = s
    · rw [if_pos h, if_pos h]
    · rw [if_neg h, if_neg h]
      exact ih

theorem sumReshape_cell (recs : List Record) (xk yk sk s : String) (x₀ : JSVal)
    (hk : sxGroup recs xk sk s x₀ ≠ [])
    (hnum : ∀ r ∈ sxGroup recs xk sk s x₀,
      (parseFloatOrText (getField r yk)).isNum = true) :
    (assocGet (sumReshape recs xk yk sk) s []).filter (fun p => p.1 == x₀) =
      [(x₀, .num (((sxGroup recs xk sk s x₀).map
        (fun r => (parseFloatOrText (getField r yk)).numPart)).sum))] := by
  unfold sumReshape
  rw [assocGet_map_entries]
  have hnd : ((assocGet (buildSeriesMaps xk yk sk [] recs) s []).map
      Prod.fst).Nodup :=
    nodup_inner_buildSeriesMaps xk yk sk recs []
      (fun s => by simp [assocGet]) s
  have hl := xLookup_sum recs xk yk sk s x₀ hk hnum
  have hfm := filter_map_entries _ x₀ _ hnd hl
  have hperm := (jsSort_perm (fun a b => decide (compareValues a.1 b.1 ≤ 0))
    ((assocGet (buildSeriesMaps xk yk sk [] recs) s []).map
      (fun p => (p.1, finalizeY p.2)))).filter (fun p => p.1 == x₀)
  rw [hfm] at hperm
  rw [show entriesOf (assocGet (buildSeriesMaps xk yk sk [] recs) s []) =
    jsSort (fun a b => decide (compareValues a.1 b.1 ≤ 0))
      ((assocGet (buildSeriesMaps xk yk sk [] recs) s []).map
        (fun p => (p.1, finalizeY p.2))) from rfl]
  rw [List.perm_singleton.mp hperm]
  rfl

/-- C2: with `sumData=true`, for any series identifier `s` and X value
`x₀`, if every record of the `(s, x₀)` cell has a numeric Y (after the
reshaper's `parseFloatOrText` coercion), the emitted series contains
exactly one point at `x₀`, and its Y value is the arithmetic sum of the
cell's numeric Y values. The X field is assumed non-date-like (otherwise
the reshaper first rewrites every X to a timestamp and the invariant
applies to the rewritten values), and distinct X/Y keys are assumed as
the two-field point model requires. -/
theorem processedDatasetSum_sum (records : List Record) (xKey yKey : String)
    (series : Option String) (s : String) (x₀ : JSVal)
    (_hxy : xKey ≠ yKey) (hxe : xKey ≠ "") (hye : yKey ≠ "")
    (hdate : xKeyIsDateOf records xKey = false)
    (hk : sxGroup records xKey (seriesKeyOf series) s x₀ ≠ [])
    (hnum : ∀ r ∈ sxGroup records xKey (seriesKeyOf series) s x₀,
      (parseFloatOrText (getField r yKey)).isNum = true) :
    (assocGet (processedDatasetSum records xKey yKey series) s []).filter
        (fun p => p.1 == x₀) =
      [(x₀, .num (((sxGroup records xKey (seriesKeyOf series) s x₀).map
        (fun r => (parseFloatOrText (getField r yKey)).numPart)).sum))] := by
  unfold processedDatasetSum
  rw [if_neg (by simp [hxe, hye]), hdate]
  simp only [Bool.false_eq_true, if_false]
  have hperm : List.Perm (sortRecordsByX records xKey) records :=
    jsSort_perm _ _
  have hgperm : List.Perm
      (sxGroup (sortRecordsByX records xKey) xKey (seriesKeyOf series) s x₀)
      (sxGroup records xKey (seriesKeyOf series) s x₀) :=
    hperm.filter _
  have hk' : sxGroup (sortRecordsByX records xKey) xKey
      (seriesKeyOf series) s x₀ ≠ [] := by
    intro hnil
    rw [hnil] at hgperm
    exact hk (hgperm.symm.eq_nil)
  have hnum' : ∀ r ∈ sxGroup (sortRecordsByX records xKey) xKey
      (seriesKeyOf series) s x₀,
      (parseFloatOrText (getField r yKey)).isNum = true :=
    fun r hr => hnum r (hgperm.mem_iff.mp hr)
  rw [sumReshape_cell _ _ _ _ _ _ hk' hnum']
  have hsum := (hgperm.map
    (fun r => (parseFloatOrText (getField r yKey)).numPart)).sum_eq
  rw [hsum]

/-- C2 witness: two records at X = "a" with Y values "1" and "2" (series
`null`) produce the single point `("a", 3)` in the `"default"` series. -/
theorem processedDatasetSum_sum_witness :
    (assocGet (processedDatasetSum
        [[("x", JSVal.str "a"), ("y", JSVal.str "1")],
         [("x", JSVal.str "a"), ("y", JSVal.str "2")]] "x" "y" none)
      "default" []).filter (fun p => p.1 == JSVal.str "a") =
      [(JSVal.str "a", JSVal.num 3)] := by
  have h := processedDatasetSum_sum
    [[("x", JSVal.str "a"), ("y", JSVal.str "1")],
     [("x", JSVal.str "a"), ("y", JSVal.str "2")]] "x" "y" none
    "default" (JSVal.str "a")
    (by decide) (by decide) (by decide) (by with_unfolding_all decide)
    (by with_unfolding_all decide) (by with_unfolding_all decide)
  rw [h]
  with_unfolding_all decide

/-! ## computeLabels — the axis selector

Source (`part_004`): `analyzeField`, `computeLabels`. The selection value
is a triple (xKey, yKey, seriesKey); an `Option String` component models
a possibly-`undefined`/`null` JavaScript value. Fields are
`Option Field` so that `null` entries of the fields array (filtered out
by `f && f.id && ...`) are representable.
-/

/-- The per-field analysis record. -/
structure FieldAnalysis where
  name : String
  isNumeric : Bool
  isTime : Bool
  isValue : Bool
  uniqueCount : Nat
  numericRatio : Rat
  sample : JSVal
deriving DecidableEq, Repr

/-- `analyzeField(field, records)`: sample the first ≤100 records,
compute the numeric ratio (numeric = strictly more than 80%), the
distinct-sample count, and the name-based time/value classification. -/
def analyzeField (field : Field) (records : List Record) : FieldAnalysis :=
  let fieldName := field.id
  let samples := (records.take (min 100 records.length)).map
    (fun r => getField r fieldName)
  let numericCount := (samples.filter (fun v => isFloatOrInt v)).length
  { name := fieldName
    isNumeric := decide ((4 : Rat) / 5 <
      (numericCount : Rat) / (samples.length : Rat))
    isTime := isTimeField fieldName
    isValue := isValueField fieldName
    uniqueCount := samples.dedup.length
    numericRatio := (numericCount : Rat) / (samples.length : Rat)
    sample := samples.headD .undef }

/-- The analyzable fields: non-null entries with a truthy id whose id is
present (not `undefined`) in the first record, analyzed in order. -/
def analyzedFields (fields : List (Option Field)) (records : List Record) :
    List FieldAnalysis :=
  ((fields.filterMap id).filter (fun f =>
    f.id != "" && getField (records.headD []) f.id != JSVal.undef)).map
    (fun f => analyzeField f records)

/-- The X-suitability score of a field. -/
def xScoreOf (recordCount : Nat) (f : FieldAnalysis) : Rat :=
  let lowerName := f.name.toLower
  let s1 : Rat := if f.isTime then 150 else 0
  let s2 : Rat := min ((f.uniqueCount : Rat) / (recordCount : Rat) * 60) 60
  let s3 : Rat :=
    if containsSub lowerName "year" || containsSub lowerName "date" then 40 else 0
  let s4 : Rat :=
    if containsSub lowerName "time" || containsSub lowerName "period" then 30 else 0
  let s5 : Rat :=
    if containsSub lowerName "month" || containsSub lowerName "day" then 25 else 0
  let s6 : Rat :=
    if f.isNumeric && decide ((recordCount : Rat) * (1 / 2) < (f.uniqueCount : Rat))
    then 15 else 0
  let s7 : Rat := if f.isValue then -80 else 0
  let s8 : Rat := if !f.isNumeric && decide (1 < f.uniqueCount) then 20 else 0
  s1 + s2 + s3 + s4 + s5 + s6 + s7 + s8

/-- The Y-suitability score of a field. -/
def yScoreOf (recordCount : Nat) (f : FieldAnalysis) : Rat :=
  let lowerName := f.name.toLower
  let s1 : Rat := if f.isValue then 150 else 0
  let s2 : Rat := if f.isNumeric then 80 else 0
  let s3 : Rat := f.numericRatio * 40
  let s4 : Rat := if f.isTime then -100 else 0
  let s5 : Rat :=
    if decide (1 < f.uniqueCount) &&
        decide ((f.uniqueCount : Rat) < (recordCount : Rat) * (7 / 10))
    then 15 else 0
  let s6 : Rat :=
    if decide ((recordCount : Rat) * (9 / 10) < (f.uniqueCount : Rat))
    then -30 else 0
  let s7 : Rat :=
    if containsSub lowerName "value" || containsSub lowerName "amount" ||
        containsSub lowerName "count" || containsSub lowerName "total" ||
        containsSub lowerName "number" || containsSub lowerName "quantity"
    then 30 else 0
  s1 + s2 + s3 + s4 + s5 + s6 + s7

/-- `String(opt)` for a possibly-undefined string. -/
def strOfOpt (o : Option String) : String :=
  match o with
  | some s => s
  | none => "undefined"

/-- `a || b` over possibly-undefined strings (empty string is falsy). -/
def jsOrStr (a b : Option String) : Option String :=
  match a with
  | some s => if s = "" then b else some s
  | none => b

/-- The name of the i-th analyzed field, when present. -/
def faName (fas : List FieldAnalysis) (i : Nat) : Option String :=
  fas[i]?.map (·.name)

/-- The Y-selection name filter:
`f.name === temp_x || String(f.name).trim() === String(temp_x).trim()`. -/
def nameMatches (tx : Option String) (n : String) : Bool :=
  (some n == tx) || (n.trim == (strOfOpt tx).trim)

/-- The Y-candidate comparator of the first selection pass: with a time
X field, non-time fields first, then by descending Y score. -/
def ySortLe (xTime : Bool) (a b : FieldAnalysis × Rat) : Bool :=
  if xTime && (a.1.isTime != b.1.isTime) then !a.1.isTime
  else decide (b.2 ≤ a.2)

/-- `fieldAnalyses.find(f => f.name !== temp_x)` followed by the
`fieldAnalyses[1]?.name || fieldAnalyses[0]?.name` fallback. -/
def fallbackAny (fas : List FieldAnalysis) (tx : Option String) :
    Option String :=
  match fas.find? (fun f => some f.name != tx) with
  | some f => some f.name
  | none => jsOrStr (faName fas 1) (faName fas 0)

/-- The initial Y-axis choice (source lines «Selecting Y-axis» through
the fallback «VERIFY» pass): filter out X and (for a time X) time
fields, sort by the Y comparator, then walk the chain of fallbacks. -/
def selectY (fas : List FieldAnalysis) (ys : List (FieldAnalysis × Rat))
    (tx : Option String) : Option String :=
  let xField := fas.find? (fun f => some f.name == tx)
  let xTime := match xField with | some f => f.isTime | none => false
  let sortedByY := jsSort (ySortLe xTime)
    (ys.filter (fun fp =>
      !nameMatches tx fp.1.name && !(xTime && fp.1.isTime)))
  match sortedByY.head? with
  | some fp =>
    let t1 := fp.1.name
    if nameMatches tx t1 then
      let next : Option String :=
        match sortedByY[1]? with
        | some fp2 => some fp2.1.name
        | none => none
      match next with
      | some n => if n ≠ "" ∧ some n ≠ tx then some n else fallbackAny fas tx
      | none => fallbackAny fas tx
    else some t1
  | none =>
    let otherFields := fas.filter (fun f =>
      (some f.name != tx) && !(xTime && f.isTime))
    let ty :=
      match otherFields.head? with
      | some other0 =>
        let nnt := otherFields.filter (fun f => f.isNumeric && !f.isTime)
        match nnt.head? with
        | some f => some f.name
        | none =>
          let numo := otherFields.filter (fun f => f.isNumeric)
          match numo.head? with
          | some f => some f.name
          | none => some other0.name
      | none =>
        match fas.find? (fun f => some f.name != tx) with
        | some f => some f.name
        | none => jsOrStr (faName fas 1) (faName fas 0)
    if ty = tx ∧ 2 ≤ fas.length then
      match fas.find? (fun f => some f.name != tx) with
      | some f => some f.name
      | none => ty
    else ty

/-- The repeated «force to the first two fields» patch: when at least two
fields exist and X equals Y, take the names of the first two analyzed
fields. -/
def forceFirstTwo (fas : List FieldAnalysis)
    (p : Option String × Option String) : Option String × Option String :=
  if 2 ≤ fas.length ∧ p.1 = p.2 then (faName fas 0, faName fas 1) else p

/-- The in-branch «fixing immediately» patch (alternatives / time-field
preference). -/
def innerFixElse (fas : List FieldAnalysis) (tx _ty : Option String)
    (alternatives : List FieldAnalysis) (alt0 : FieldAnalysis) :
    Option String × Option String :=
  let timeFields := alternatives.filter (fun f => f.isTime)
  match timeFields.head? with
  | some tf =>
    let tx' : Option String := some tf.name
    let yAlternatives := fas.filter (fun f => some f.name != tx')
    match yAlternatives.head? with
    | some yf => (tx', some yf.name)
    | none => (tx', some alt0.name)
  | none => (tx, some alt0.name)

/-- The in-branch «X and Y are the same after selection» patch. -/
def innerFix (fas : List FieldAnalysis)
    (p : Option String × Option String) : Option String × Option String :=
  if ¬(p.1 = p.2 ∧ 2 ≤ fas.length) then p
  else
    let tx := p.1
    let xFieldInfo := fas.find? (fun f => some f.name == tx)
    let alternatives := fas.filter (fun f => some f.name != tx)
    match alternatives.head? with
    | none => p
    | some alt0 =>
      match xFieldInfo with
      | some xi =>
        if xi.isTime then
          let ntn := alternatives.filter (fun f => !f.isTime && f.isNumeric)
          match ntn.head? with
          | some f => (tx, some f.name)
          | none => (tx, some alt0.name)
        else innerFixElse fas tx p.2 alternatives alt0
      | none => innerFixElse fas tx p.2 alternatives alt0

/-- The comparator of the big-fix Y candidates: value fields first, then
by descending numeric ratio. -/
def yCandLe (a b : FieldAnalysis) : Bool :=
  if a.isValue != b.isValue then a.isValue
  else decide (b.numericRatio ≤ a.numericRatio)

/-- The «neither time nor value» arm of the top-level complementary-pair
fix. -/
def bigFixNeither (fas : List FieldAnalysis) (tx ty : Option String) :
    Option String × Option String :=
  let timeFields := fas.filter (fun f => f.isTime && (some f.name != tx))
  let valueFields := fas.filter (fun f => f.isValue && (some f.name != tx))
  match timeFields.head? with
  | some tf =>
    let tx' : Option String := some tf.name
    if tx' = ty then
      match fas.find? (fun f => some f.name != tx') with
      | some df => (tx', some df.name)
      | none => (tx', ty)
    else (tx', ty)
  | none =>
    match valueFields.head? with
    | some vf => (tx, some vf.name)
    | none =>
      (faName fas 0, if 1 < fas.length then faName fas 1 else faName fas 0)

/-- The top-level «best complementary pair» patch. -/
def bigFix (fas : List FieldAnalysis)
    (p : Option String × Option String) : Option String × Option String :=
  if ¬(p.1 = p.2 ∧ 2 ≤ fas.length) then p
  else
    let tx := p.1
    let ty := p.2
    match fas.find? (fun f => some f.name == tx) with
    | some xf =>
      if xf.isTime then
        let yCands := jsSort yCandLe (fas.filter (fun f =>
          (some f.name != tx) && f.isNumeric && !f.isTime))
        match yCands.head? with
        | some f => (tx, some f.name)
        | none =>
          match fas.find? (fun f => some f.name != tx) with
          | some f => (tx, some f.name)
          | none => (tx, ty)
      else if xf.isValue then
        let tCands := jsSort (fun a b => decide (b.uniqueCount ≤ a.uniqueCount))
          (fas.filter (fun f => (some f.name != tx) && f.isTime))
        match tCands.head? with
        | some f => (some f.name, some xf.name)
        | none =>
          match fas.find? (fun f => some f.name != tx) with
          | some f => (tx, some f.name)
          | none => (tx, ty)
      else bigFixNeither fas tx ty
    | none => bigFixNeither fas tx ty

/-- The «swap with next available» patch: replace Y with the first field
differing from X, when any. -/
def pickDifferent (fas : List FieldAnalysis)
    (p : Option String × Option String) : Option String × Option String :=
  if p.1 = p.2 ∧ 2 ≤ fas.length then
    match fas.find? (fun f => some f.name != p.1) with
    | some f => (p.1, some f.name)
    | none => p
  else p

/-- The «absolute final check» patch: first two fields when they differ,
else a scan from index 1. -/
def forceLoop (fas : List FieldAnalysis)
    (p : Option String × Option String) : Option String × Option String :=
  if p.1 = p.2 ∧ 2 ≤ fas.length then
    match faName fas 0 with
    | none => p
    | some fn =>
      match faName fas 1 with
      | some sn =>
        if sn ≠ "" ∧ sn ≠ fn then (some fn, some sn)
        else
          match (fas.drop 1).find? (fun f => f.name != fn) with
          | some f => (some fn, some f.name)
          | none => p
      | none =>
        match (fas.drop 1).find? (fun f => f.name != fn) with
        | some f => (some fn, some f.name)
        | none => p
  else p

/-- The series choice: `null` with at most two fields, else the
cardinality-constrained candidate closest to 7.5 unique values. -/
def chooseSeries (fas : List FieldAnalysis) (nrec : Nat)
    (tx ty : Option String) : Option String :=
  if fas.length ≤ 2 then none
  else
    let cands := fas.filter (fun f =>
      (some f.name != tx) && (some f.name != ty) && (f.name != "_id") &&
      decide (1 < f.uniqueCount) &&
      decide ((f.uniqueCount : Rat) < min 50 ((nrec : Rat) * (1 / 2))) &&
      decide ((f.uniqueCount : Rat) < (nrec : Rat) * (9 / 10)))
    match cands.head? with
    | none => none
    | some c0 =>
      let ideal := cands.filter (fun f =>
        decide (2 ≤ f.uniqueCount) && decide (f.uniqueCount ≤ 20))
      match (jsSort (fun a b =>
        decide (|(a.uniqueCount : Rat) - 15 / 2| ≤
          |(b.uniqueCount : Rat) - 15 / 2|)) ideal).head? with
      | some f => some f.name
      | none => some c0.name

/-- Everything of `computeLabels` after input validation and before the
last «final assertion» patch: scoring, X choice, Y choice, all but the
final X=Y patch, and the series choice. -/
def computeLabelsPre (fields : List (Option Field)) (records : List Record) :
    (Option String × Option String) × Option String :=
  let fas := analyzedFields fields records
  let nrec := records.length
  let xScores := fas.map (fun f => (f, xScoreOf nrec f))
  let yScores := fas.map (fun f => (f, yScoreOf nrec f))
  let sortedByX := jsSort (fun a b => decide (b.2 ≤ a.2)) xScores
  let tx0 : Option String := sortedByX.head?.map (fun fp => fp.1.name)
  let p1 : Option String × Option String :=
    if fas.length < 2 then
      (tx0, jsOrStr (fas.head?.map (·.name)) tx0)
    else
      innerFix fas (forceFirstTwo fas (tx0, selectY fas yScores tx0))
  let p2 := bigFix fas p1
  let ser := chooseSeries fas nrec p2.1 p2.2
  let p3 := forceFirstTwo fas p2
  let p4 := pickDifferent fas p3
  let p5 := forceLoop fas p4
  let p6 := forceFirstTwo fas p5
  (p6, ser)

/-- The selection triple returned by `computeLabels` on validated input:
the pre-selection result with the final X=Y patch applied. -/
def computeLabelsVal (fields : List (Option Field)) (records : List Record) :
    Option String × Option String × Option String :=
  let pre := computeLabelsPre fields records
  let p7 := forceFirstTwo (analyzedFields fields records) pre.1
  (p7.1, p7.2, pre.2)

/-- `computeLabels(fields, records)`: throw on empty or non-array
inputs, else return `[temp_x, temp_y, temp_series]`. -/
def computeLabels (fields : List (Option Field)) (records : List Record) :
    Except String (Option String × Option String × Option String) :=
  if fields.isEmpty then .error "Fields array is empty or invalid"
  else if records.isEmpty then .error "Records array is empty or invalid"
  else .ok (computeLabelsVal fields records)

theorem forceFirstTwo_distinct (fas : List FieldAnalysis)
    (p : Option String × Option String) (h2 : 2 ≤ fas.length)
    (hname : faName fas 0 ≠ faName fas 1) :
    (forceFirstTwo fas p).1 ≠ (forceFirstTwo fas p).2 := by
  unfold forceFirstTwo
  by_cases h : 2 ≤ fas.length ∧ p.1 = p.2
  · rw [if_pos h]
    exact hname
  · rw [if_neg h]
    intro heq
    exact h ⟨h2, heq⟩

/-- C1 counterexample: a fields array with two entries sharing the id
`"a"` (both analyzable: the id is present in the first record) drives
every selection pass and every X=Y patch to the same name, so
`computeLabels` returns equal X and Y keys despite two analyzable
fields. -/
theorem computeLabels_dup_cex :
    2 ≤ (analyzedFields [some ⟨"a"⟩, some ⟨"a"⟩]
      [[("a", JSVal.str "1")]]).length ∧
    (computeLabelsVal [some ⟨"a"⟩, some ⟨"a"⟩] [[("a", JSVal.str "1")]]).1 =
      (computeLabelsVal [some ⟨"a"⟩, some ⟨"a"⟩]
        [[("a", JSVal.str "1")]]).2.1 := by
  constructor
  · with_unfolding_all decide
  · with_unfolding_all decide

/-- C1 amended: for nonempty records and at least two analyzable fields
whose *first two* entries have distinct ids, `computeLabels` succeeds
and returns distinct X and Y keys (the final X=Y patch falls back to the
first two analyzed fields, and every earlier outcome with X=Y triggers
it). -/
theorem computeLabels_distinct (fields : List (Option Field))
    (records : List Record) (hrec : records ≠ [])
    (h2 : 2 ≤ (analyzedFields fields records).length)
    (hname : faName (analyzedFields fields records) 0 ≠
      faName (analyzedFields fields records) 1) :
    computeLabels fields records = .ok (computeLabelsVal fields records) ∧
    (computeLabelsVal fields records).1 ≠
      (computeLabelsVal fields records).2.1 := by
  constructor
  · have hf : fields ≠ [] := by
      intro h
      rw [h] at h2
      simp [analyzedFields] at h2
    unfold computeLabels
    rw [if_neg (by simp [List.isEmpty_iff, hf]),
      if_neg (by simp [List.isEmpty_iff, hrec])]
  · exact forceFirstTwo_distinct (analyzedFields fields records)
      (computeLabelsPre fields records).1 h2 hname

/-- C1 witness: two distinct analyzable fields yield distinct axes. -/
theorem computeLabels_distinct_witness :
    (computeLabelsVal [some ⟨"a"⟩, some ⟨"b"⟩]
      [[("a", JSVal.str "1"), ("b", JSVal.str "2")]]).1 ≠
    (computeLabelsVal [some ⟨"a"⟩, some ⟨"b"⟩]
      [[("a", JSVal.str "1"), ("b", JSVal.str "2")]]).2.1 :=
  (computeLabels_distinct _ _ (by decide) (by with_unfolding_all decide)
    (by with_unfolding_all decide)).2

/-- C9: `computeLabels` fails exactly on an empty fields sequence or an
empty records sequence (the non-array malformation of the source is not
representable in the typed embedding); on every other input, including
fields arrays with null or blank-id entries, it returns a selection
without raising. -/
theorem computeLabels_error_iff (fields : List (Option Field))
    (records : List Record) :
    (∃ e, computeLabels fields records = .error e) ↔
      fields = [] ∨ records = [] := by
  unfold computeLabels
  by_cases hf : fields.isEmpty = true
  · rw [if_pos hf]
    simp [List.isEmpty_iff.mp hf]
  · rw [if_neg hf]
    have hf' : fields ≠ [] := by
      intro h
      exact hf (by simp [h])
    by_cases hr : records.isEmpty = true
    · rw [if_pos hr]
      simp [List.isEmpty_iff.mp hr]
    · rw [if_neg hr]
      have hr' : records ≠ [] := by
        intro h
        exact hr (by simp [h])
      simp [hf', hr']

/-- C9 witness: the characterization applied at an empty and at a
well-formed input. -/
theorem computeLabels_error_iff_witness :
    (∃ e, computeLabels [] [[("a", JSVal.str "1")]] = .error e) ∧
    ¬(∃ e, computeLabels [some ⟨"a"⟩] [[("a", JSVal.str "1")]] = .error e) :=
  ⟨(computeLabels_error_iff _ _).mpr (Or.inl rfl),
   fun h => by
     rcases (computeLabels_error_iff _ _).mp h with h1 | h2
     · exact absurd h1 (by decide)
     · exact absurd h2 (by decide)⟩

end Sgraphs
